import Mathlib

/-!
Shallow embedding of the per-CPU frequency-capping core of
`drivers/thermal/mi_thermal_interface.c` (Xiaomi thermal control interface),
together with theorems settling the specification claims about it.

The embedded fragment consists of:
  * `cpufreq_set_level`   (C lines 77-90)
  * `cpu_limits_set_level` (C lines 92-108; its inner level-scan loop is
    factored out as `scanLevel` / `resolveLevel`)
  * `find_next_max`       (C lines 110-122)
  * `cpu_thermal_init`    (C lines 124-188; the descending-table fill loop is
    factored out as `buildTable`)
  * `destory_thermal_cpu` (C lines 190-200)
  * `mi_thermal_interface_init` (C lines 536-558)

Machine integers: all frequencies and levels are `unsigned int` in the C code
and are modelled as `Nat`; the only place where wrap-around matters is the
initialiser `freq = -1` of the table-fill loop, which is the explicit constant
`UINT_MAX = 2^32 - 1`.  Backend effects (`freq_qos_update_request`,
`freq_qos_add_request`, `freq_qos_remove_request`) are modelled by explicit
state passing plus an instrumentation channel counting backend calls, and a
`Bool` flag selecting whether the backend call succeeds or fails.
-/

namespace MiThermal

/-- Linux errno constants used by the driver (stored as positive magnitudes;
the driver returns their negations). -/
def EINVAL : Int := 22

/-- Linux errno: no such process (returned when `cpufreq_cpu_get` yields no policy). -/
def ESRCH : Int := 3

/-- Linux errno: no such device (returned when the cpufreq table has no valid entries). -/
def ENODEV : Int := 19

/-- Linux errno: out of memory (returned when an allocation fails). -/
def ENOMEM : Int := 12

/-- Value of `(unsigned int)(-1)`, the initial `prev_max` of the table-fill
loop in `cpu_thermal_init` (C line 165: `for (i = 0, freq = -1; ...)`). -/
def UINT_MAX : Nat := 2 ^ 32 - 1

/-- Embedding of `struct cpufreq_device` (C lines 47-55): per-CPU constraint
entry.  `freq_table` is the list of frequencies (C: array of `struct
freq_table`, in descending order), `cpufreq_state` the current level index,
`qos_value` the ceiling currently held by the entry's `freq_qos_request`
(the Request Slot's last successfully applied value). -/
structure CpufreqDevice where
  id : Nat
  cpufreq_state : Nat
  max_level : Nat
  freq_table : List Nat
  qos_value : Nat
deriving Repr, DecidableEq

/-- Embedding of `cpufreq_set_level` (C lines 77-90).  `ok` models whether the
backend call `freq_qos_update_request` succeeds.  Returns the updated device,
the C return value, and the number of backend calls issued (0 or 1).  Mirrors
the C control flow exactly: the `WARN_ON(state > cdev->max_level)` guard
returns `-EINVAL`; an unchanged state returns 0 with no backend call;
otherwise `cdev->cpufreq_state` is written FIRST and then the backend update
is issued — on backend failure the new `cpufreq_state` is kept (the C code
has no rollback) while the qos value stays at its old value. -/
def cpufreq_set_level (ok : Bool) (cdev : CpufreqDevice) (state : Nat) :
    CpufreqDevice × Int × Nat :=
  if cdev.max_level < state then (cdev, -EINVAL, 0)
  else if cdev.cpufreq_state = state then (cdev, 0, 0)
  else
    let cdev1 : CpufreqDevice := { cdev with cpufreq_state := state }
    if ok then ({ cdev1 with qos_value := cdev.freq_table.getD state 0 }, 0, 1)
    else (cdev1, -1, 1)

/-- Level-scan loop body of `cpu_limits_set_level` (C lines 99-104): scan a
frequency list from the front and return the index of the first entry that is
`≤ max_freq`, or `none` when no entry qualifies. -/
def scanLevel (max_freq : Nat) : List Nat → Option Nat
  | [] => none
  | f :: fs => if f ≤ max_freq then some 0 else (scanLevel max_freq fs).map (· + 1)

/-- Level resolution for one device: the C loop runs `level` from 0 to
`max_level` inclusive reading `freq_table[level]`, hence it scans the first
`max_level + 1` entries of the table. -/
def resolveLevel (cdev : CpufreqDevice) (max_freq : Nat) : Option Nat :=
  scanLevel max_freq (cdev.freq_table.take (cdev.max_level + 1))

/-- Per-device body of `cpu_limits_set_level` (C lines 98-105): if some level
resolves, call `cpufreq_set_level` with it (the C code discards the returned
error — the function is `void`); if no level matches, the loop falls through
with no effect.  Returns the updated device and the backend-call count. -/
def cpu_limits_set_dev (ok : Bool) (cdev : CpufreqDevice) (max_freq : Nat) :
    CpufreqDevice × Nat :=
  match resolveLevel cdev max_freq with
  | none => (cdev, 0)
  | some level =>
      let r := cpufreq_set_level ok cdev level
      (r.1, r.2.2)

/-- Embedding of `cpu_limits_set_level` (C lines 92-108): walk the device
list, act on the first device whose `id` equals `cpu`, then break.  The C
function returns `void`: no error of any kind is reported to the caller (in
particular, an id that matches no device silently does nothing).  The `Nat`
component is the instrumentation count of backend calls. -/
def cpu_limits_set_level (ok : Bool) :
    List CpufreqDevice → Nat → Nat → List CpufreqDevice × Nat
  | [], _, _ => ([], 0)
  | d :: ds, cpu, max_freq =>
    if d.id = cpu then
      let r := cpu_limits_set_dev ok d max_freq
      (r.1 :: ds, r.2)
    else
      let r := cpu_limits_set_level ok ds cpu max_freq
      (d :: r.1, r.2)

/-- Accumulator loop of `find_next_max` (C lines 116-119): fold over the raw
table keeping the largest frequency that is strictly below `prev_max`. -/
def fnmGo (prev_max : Nat) : List Nat → Nat → Nat
  | [], m => m
  | f :: fs, m => fnmGo prev_max fs (if m < f ∧ f < prev_max then f else m)

/-- Embedding of `find_next_max` (C lines 110-122): largest valid frequency
strictly below `prev_max`, or the sentinel 0 when none exists.  `table` is
the list of frequencies of the policy's valid cpufreq entries. -/
def find_next_max (table : List Nat) (prev_max : Nat) : Nat :=
  fnmGo prev_max table 0

/-- Table-fill loop of `cpu_thermal_init` (C lines 165-174): `n` iterations,
each taking the next maximum strictly below the previous one. -/
def buildTableAux (raw : List Nat) : Nat → Nat → List Nat
  | 0, _ => []
  | n + 1, prev =>
    let f := find_next_max raw prev
    f :: buildTableAux raw n f

/-- Descending frequency table built by `cpu_thermal_init` for one CPU: one
slot per valid cpufreq entry (`i = cpufreq_table_count_valid_entries`),
starting from `freq = -1` (`UINT_MAX`). -/
def buildTable (raw : List Nat) : List Nat :=
  buildTableAux raw raw.length UINT_MAX

/-- Constraint entry as assembled by one successful iteration of
`cpu_thermal_init` (C lines 149-177): `kzalloc` zeroes `cpufreq_state`,
`max_level = i - 1`, the table is filled in descending order, and the qos
request is seeded at `freq_table[0].frequency`. -/
def init_cpu_dev (cpu : Nat) (raw : List Nat) : CpufreqDevice :=
  { id := cpu
    cpufreq_state := 0
    max_level := raw.length - 1
    freq_table := buildTable raw
    qos_value := (buildTable raw).getD 0 0 }

/-- Per-CPU input to initialization: `policyFreqs = none` models
`cpufreq_cpu_get` returning NULL, otherwise the frequencies of the policy's
valid cpufreq entries; `allocOk` models the two allocations (`kzalloc` and
`kmalloc_array`) succeeding; `qosAddRet` is the return value of
`freq_qos_add_request`. -/
structure CpuInfo where
  policyFreqs : Option (List Nat)
  allocOk : Bool
  qosAddRet : Int
deriving Repr, DecidableEq

/-- Loop of `cpu_thermal_init` (C lines 130-186): `ret` is the running value
of the C variable `ret`, `devs` the global `cpufreq_dev_list` (`list_add`
prepends), `cpu` the loop counter.  Each failure returns immediately with the
corresponding error, leaving the devices registered so far in place. -/
def cpu_thermal_init_go : Int → List CpufreqDevice → Nat → List CpuInfo →
    Int × List CpufreqDevice
  | ret, devs, _, [] => (ret, devs)
  | _, devs, cpu, c :: cs =>
    match c.policyFreqs with
    | none => (-ESRCH, devs)
    | some raw =>
      if raw.length = 0 then (-ENODEV, devs)
      else if c.allocOk = false then (-ENOMEM, devs)
      else if c.qosAddRet < 0 then (c.qosAddRet, devs)
      else cpu_thermal_init_go c.qosAddRet (init_cpu_dev cpu raw :: devs) (cpu + 1) cs

/-- Embedding of `cpu_thermal_init` (C lines 124-188).  The initial `ret` is
modelled as 0 (in C it is uninitialized when there are no possible CPUs; no
claim depends on that case). -/
def cpu_thermal_init (cs : List CpuInfo) : Int × List CpufreqDevice :=
  cpu_thermal_init_go 0 [] 0 cs

/-- Embedding of `mi_thermal_interface_init` (C lines 536-558): the module
init calls `cpu_thermal_init()` DISCARDING its return value (C line 540), all
later failures are only logged, and the function unconditionally returns 0. -/
def mi_thermal_interface_init (cs : List CpuInfo) : Int × List CpufreqDevice :=
  let r := cpu_thermal_init cs
  (0, r.2)

/-- Observable teardown events: releasing a device's qos request
(`freq_qos_remove_request`) and removing the entry from the list
(`list_del`), tagged with the device id. -/
inductive TeardownEvent where
  | releaseSlot : Nat → TeardownEvent
  | removeEntry : Nat → TeardownEvent
deriving Repr, DecidableEq

/-- Embedding of `destory_thermal_cpu` (C lines 190-200): for every entry, in
list order, first `freq_qos_remove_request` then `list_del` (plus frees).
Returns the final device list (always empty) and the event trace in
execution order. -/
def destory_thermal_cpu : List CpufreqDevice → List CpufreqDevice × List TeardownEvent
  | [] => ([], [])
  | d :: ds =>
    let r := destory_thermal_cpu ds
    (r.1, TeardownEvent.releaseSlot d.id :: TeardownEvent.removeEntry d.id :: r.2)

/-- Strictly descending list of frequencies (the documented invariant of
`freq_table`, C line 51: "In descending order"). -/
def StrictDesc (l : List Nat) : Prop := l.Pairwise (fun a b => b < a)

instance (l : List Nat) : Decidable (StrictDesc l) :=
  inferInstanceAs (Decidable (l.Pairwise (fun a b => b < a)))

/-- First error produced by one iteration of the `cpu_thermal_init` loop on a
given CPU description, 0 when the iteration succeeds; used to state the
abort-on-failure claims. -/
def cpuErr (c : CpuInfo) : Int :=
  match c.policyFreqs with
  | none => -ESRCH
  | some raw =>
    if raw.length = 0 then -ENODEV
    else if c.allocOk = false then -ENOMEM
    else if c.qosAddRet < 0 then c.qosAddRet
    else 0

/-! ### Basic lemmas about the level scan -/

theorem scanLevel_lt_length :
    ∀ (l : List Nat) (m i : Nat), scanLevel m l = some i → i < l.length := by
  intro l
  induction l with
  | nil => intro m i h; simp [scanLevel] at h
  | cons f fs ih =>
    intro m i h
    simp only [scanLevel] at h
    split at h
    · cases h
      simp only [List.length_cons]
      omega
    · rcases Option.map_eq_some'.mp h with ⟨j, hj, rfl⟩
      have := ih m j hj
      simp only [List.length_cons]
      omega

theorem scanLevel_getD_le :
    ∀ (l : List Nat) (m i : Nat), scanLevel m l = some i → l.getD i 0 ≤ m := by
  intro l
  induction l with
  | nil => intro m i h; simp [scanLevel] at h
  | cons f fs ih =>
    intro m i h
    simp only [scanLevel] at h
    split at h
    · cases h
      rename_i hf
      simpa [List.getD_cons_zero] using hf
    · rcases Option.map_eq_some'.mp h with ⟨j, hj, rfl⟩
      simpa [List.getD_cons_succ] using ih m j hj

theorem scanLevel_first :
    ∀ (l : List Nat) (m i : Nat), scanLevel m l = some i →
      ∀ j, j < i → m < l.getD j 0 := by
  intro l
  induction l with
  | nil => intro m i h; simp [scanLevel] at h
  | cons f fs ih =>
    intro m i h j hj
    simp only [scanLevel] at h
    split at h
    · cases h; omega
    · rcases Option.map_eq_some'.mp h with ⟨k, hk, rfl⟩
      rename_i hf
      cases j with
      | zero => simpa [List.getD_cons_zero] using Nat.lt_of_not_le hf
      | succ j' =>
        rw [List.getD_cons_succ]
        exact ih m k hk j' (by omega)

theorem scanLevel_isSome :
    ∀ (l : List Nat) (m g : Nat), g ∈ l → g ≤ m → (scanLevel m l).isSome = true := by
  intro l
  induction l with
  | nil => intro m g hg; simp at hg
  | cons f fs ih =>
    intro m g hg hle
    simp only [scanLevel]
    by_cases hf : f ≤ m
    · rw [if_pos hf]; rfl
    · rw [if_neg hf]
      rcases List.mem_cons.mp hg with rfl | hg'
      · exact absurd hle hf
      · obtain ⟨k, hk⟩ := Option.isSome_iff_exists.mp (ih m g hg' hle)
        rw [hk]
        rfl

theorem scanLevel_none_of :
    ∀ (l : List Nat) (m : Nat), (∀ g ∈ l, m < g) → scanLevel m l = none := by
  intro l
  induction l with
  | nil => intro m _; rfl
  | cons f fs ih =>
    intro m h
    have hf : ¬ f ≤ m := Nat.not_le.mpr (h f (List.mem_cons_self f fs))
    simp only [scanLevel, if_neg hf]
    rw [ih m (fun g hg => h g (List.mem_cons_of_mem f hg))]
    rfl

theorem scanLevel_self :
    ∀ (l : List Nat), StrictDesc l → ∀ i, i < l.length →
      scanLevel (l.getD i 0) l = some i := by
  intro l
  induction l with
  | nil => intro _ i hi; simp at hi
  | cons f fs ih =>
    intro hd i hi
    rw [StrictDesc, List.pairwise_cons] at hd
    cases i with
    | zero => simp [scanLevel, List.getD_cons_zero]
    | succ j =>
      have hj : j < fs.length := by simpa using hi
      have hmem : fs.getD j 0 ∈ fs := by
        rw [List.getD_eq_getElem fs 0 hj]
        exact List.getElem_mem hj
      have hlt : fs.getD j 0 < f := hd.1 _ hmem
      rw [List.getD_cons_succ]
      simp only [scanLevel, if_neg (Nat.not_le.mpr hlt)]
      rw [ih hd.2 j hj]
      rfl

/-- Resolution scans the whole table when the table length matches
`max_level + 1` (the invariant established by `cpu_thermal_init`). -/
theorem resolveLevel_eq_scan {d : CpufreqDevice}
    (hlen : d.freq_table.length = d.max_level + 1) (mf : Nat) :
    resolveLevel d mf = scanLevel mf d.freq_table := by
  rw [resolveLevel, List.take_of_length_le (by omega)]

theorem resolveLevel_le_max {d : CpufreqDevice} {mf l : Nat}
    (h : resolveLevel d mf = some l) : l ≤ d.max_level := by
  have h1 := scanLevel_lt_length _ _ _ h
  have h2 : (d.freq_table.take (d.max_level + 1)).length ≤ d.max_level + 1 := by
    simp [List.length_take]
  omega

/-! ### Basic lemmas about the next-maximum scan and the table builder -/

theorem fnmGo_le (prev : Nat) : ∀ (l : List Nat) (acc : Nat), acc ≤ fnmGo prev l acc := by
  intro l
  induction l with
  | nil => intro acc; exact Nat.le_refl acc
  | cons f fs ih =>
    intro acc
    by_cases h : acc < f ∧ f < prev
    · simp only [fnmGo, if_pos h]
      exact Nat.le_trans (Nat.le_of_lt h.1) (ih f)
    · simp only [fnmGo, if_neg h]
      exact ih acc

theorem fnmGo_mem (prev : Nat) : ∀ (l : List Nat) (acc : Nat),
    fnmGo prev l acc = acc ∨ (fnmGo prev l acc ∈ l ∧ fnmGo prev l acc < prev) := by
  intro l
  induction l with
  | nil => intro acc; left; rfl
  | cons f fs ih =>
    intro acc
    by_cases h : acc < f ∧ f < prev
    · simp only [fnmGo, if_pos h]
      rcases ih f with h1 | h1
      · right
        exact ⟨by rw [h1]; exact List.mem_cons_self f fs, by rw [h1]; exact h.2⟩
      · right
        exact ⟨List.mem_cons_of_mem f h1.1, h1.2⟩
    · simp only [fnmGo, if_neg h]
      rcases ih acc with h1 | h1
      · left; exact h1
      · right; exact ⟨List.mem_cons_of_mem f h1.1, h1.2⟩

theorem fnmGo_ub (prev : Nat) : ∀ (l : List Nat) (acc g : Nat),
    g ∈ l → g < prev → g ≤ fnmGo prev l acc := by
  intro l
  induction l with
  | nil => intro acc g hg _; simp at hg
  | cons f fs ih =>
    intro acc g hg hlt
    rcases List.mem_cons.mp hg with rfl | hg'
    · by_cases h : acc < g ∧ g < prev
      · simp only [fnmGo, if_pos h]
        exact fnmGo_le prev fs g
      · have hga : g ≤ acc := by
          by_cases hag : acc < g
          · exact absurd ⟨hag, hlt⟩ h
          · exact Nat.le_of_not_lt hag
        simp only [fnmGo, if_neg h]
        exact Nat.le_trans hga (fnmGo_le prev fs acc)
    · by_cases h : acc < f ∧ f < prev
      · simp only [fnmGo, if_pos h]
        exact ih f g hg' hlt
      · simp only [fnmGo, if_neg h]
        exact ih acc g hg' hlt

theorem find_next_max_mem (table : List Nat) (prev : Nat) :
    find_next_max table prev = 0 ∨
      (find_next_max table prev ∈ table ∧ find_next_max table prev < prev) :=
  fnmGo_mem prev table 0

theorem find_next_max_ub {table : List Nat} {prev g : Nat} (hg : g ∈ table)
    (hlt : g < prev) : g ≤ find_next_max table prev :=
  fnmGo_ub prev table 0 g hg hlt

theorem find_next_max_eq_zero {table : List Nat} {prev : Nat}
    (h : ∀ g ∈ table, ¬ g < prev) : find_next_max table prev = 0 := by
  rcases find_next_max_mem table prev with h0 | ⟨hm, hlt⟩
  · exact h0
  · exact absurd hlt (h _ hm)

theorem buildTableAux_succ (raw : List Nat) (n prev : Nat) :
    buildTableAux raw (n + 1) prev =
      find_next_max raw prev :: buildTableAux raw n (find_next_max raw prev) := rfl

theorem buildTableAux_length (raw : List Nat) :
    ∀ (n prev : Nat), (buildTableAux raw n prev).length = n := by
  intro n
  induction n with
  | zero => intro prev; rfl
  | succ k ih => intro prev; simp [buildTableAux_succ, ih]

theorem buildTable_length (raw : List Nat) : (buildTable raw).length = raw.length :=
  buildTableAux_length raw raw.length UINT_MAX

theorem buildTableAux_zero_prev (raw : List Nat) :
    ∀ n, buildTableAux raw n 0 = List.replicate n 0 := by
  intro n
  induction n with
  | zero => rfl
  | succ k ih =>
    have h0 : find_next_max raw 0 = 0 := find_next_max_eq_zero (fun g _ => by omega)
    rw [buildTableAux_succ, h0, ih, List.replicate_succ]

theorem buildTableAux_none_below (raw : List Nat) (prev : Nat)
    (h : ∀ g ∈ raw, ¬ g < prev) :
    ∀ n, buildTableAux raw n prev = List.replicate n 0 := by
  intro n
  cases n with
  | zero => rfl
  | succ k =>
    have h0 : find_next_max raw prev = 0 := find_next_max_eq_zero h
    rw [buildTableAux_succ, h0, buildTableAux_zero_prev, List.replicate_succ]

theorem getD_replicate_zero : ∀ (n i : Nat), (List.replicate n (0 : Nat)).getD i 0 = 0 := by
  intro n
  induction n with
  | zero =>
    intro i
    simp [List.replicate, List.getD]
  | succ k ih =>
    intro i
    cases i with
    | zero => simp [List.replicate_succ, List.getD_cons_zero]
    | succ j => rw [List.replicate_succ, List.getD_cons_succ, ih]

/-- Counting step for the dedup-based analysis of the table builder: removing
the maximal element below `prev` from a duplicate-free list drops the count of
elements below `prev` by exactly one. -/
theorem filter_lt_count_step :
    ∀ (D : List Nat), D.Nodup → ∀ (m prev : Nat), m ∈ D → m < prev →
      (∀ f ∈ D, f < prev → f ≤ m) →
      (D.filter (fun f => f < m)).length + 1 = (D.filter (fun f => f < prev)).length := by
  intro D
  induction D with
  | nil => intro _ m prev hm; simp at hm
  | cons a tl ih =>
    intro hnd m prev hm hmp hub
    rw [List.nodup_cons] at hnd
    rcases List.mem_cons.mp hm with rfl | hm'
    · have htl : tl.filter (fun f => f < m) = tl.filter (fun f => f < prev) := by
        apply List.filter_congr
        intro x hx
        have hxm : x ≠ m := fun h => hnd.1 (h ▸ hx)
        by_cases hxp : x < prev
        · have h1 : x ≤ m := hub x (List.mem_cons_of_mem m hx) hxp
          have h2 : x < m := Nat.lt_of_le_of_ne h1 hxm
          simp [h2, hxp]
        · have h2 : ¬ x < m := fun hc => hxp (Nat.lt_trans hc hmp)
          simp [h2, hxp]
      simp only [List.filter_cons]
      simp only [decide_eq_true_eq]
      rw [if_neg (by omega : ¬ m < m), if_pos hmp, htl]
      simp
    · have hum : ∀ f ∈ tl, f < prev → f ≤ m := fun f hf => hub f (List.mem_cons_of_mem a hf)
      by_cases ha : a < m
      · have hap : a < prev := Nat.lt_trans ha hmp
        simp only [List.filter_cons, decide_eq_true_eq]
        rw [if_pos ha, if_pos hap]
        simp only [List.length_cons]
        have := ih hnd.2 m prev hm' hmp hum
        omega
      · have hap : ¬ a < prev := by
          intro hc
          have h1 : a ≤ m := hub a (List.mem_cons_self a tl) hc
          have h2 : a = m := Nat.le_antisymm h1 (Nat.le_of_not_lt ha)
          exact hnd.1 (h2 ▸ hm')
        simp only [List.filter_cons, decide_eq_true_eq]
        rw [if_neg ha, if_neg hap]
        exact ih hnd.2 m prev hm' hmp hum

/-- Main property of the table-fill loop on a duplicate-free set of positive
frequencies: running it for exactly as many steps as there are values below
`prev` yields a strictly descending enumeration of exactly those values. -/
theorem buildTableAux_nodup_spec (raw : List Nat) (hpos : ∀ f ∈ raw, 0 < f)
    (hnd : raw.Nodup) :
    ∀ (n prev : Nat), (raw.filter (fun f => f < prev)).length = n →
      StrictDesc (buildTableAux raw n prev) ∧
      (∀ f, f ∈ buildTableAux raw n prev ↔ f ∈ raw ∧ f < prev) := by
  intro n
  induction n with
  | zero =>
    intro prev hcount
    refine ⟨List.Pairwise.nil, ?_⟩
    intro f
    constructor
    · intro hf; simp [buildTableAux] at hf
    · rintro ⟨hfr, hfp⟩
      have hmem : f ∈ raw.filter (fun g => g < prev) :=
        List.mem_filter.mpr ⟨hfr, by simp [hfp]⟩
      rw [List.length_eq_zero] at hcount
      rw [hcount] at hmem
      simp at hmem
  | succ k ih =>
    intro prev hcount
    have hne : raw.filter (fun f => f < prev) ≠ [] := by
      intro h; rw [h] at hcount; simp at hcount
    obtain ⟨w, hw⟩ := List.exists_mem_of_ne_nil _ hne
    have hwr : w ∈ raw := (List.mem_filter.mp hw).1
    have hwp : w < prev := by simpa using (List.mem_filter.mp hw).2
    set m := find_next_max raw prev with hm
    have hub : ∀ f ∈ raw, f < prev → f ≤ m := fun f hf hlt => find_next_max_ub hf hlt
    have hmpos : 0 < m := Nat.lt_of_lt_of_le (hpos w hwr) (hub w hwr hwp)
    have hmem : m ∈ raw ∧ m < prev := by
      rcases find_next_max_mem raw prev with h0 | h1
      · rw [← hm] at h0; omega
      · rw [← hm] at h1; exact h1
    have hstep := filter_lt_count_step raw hnd m prev hmem.1 hmem.2 hub
    have hcount' : (raw.filter (fun f => f < m)).length = k := by omega
    obtain ⟨ihd, ihm⟩ := ih m hcount'
    rw [buildTableAux_succ, ← hm]
    constructor
    · rw [StrictDesc, List.pairwise_cons]
      exact ⟨fun b hb => ((ihm b).mp hb).2, ihd⟩
    · intro f
      rw [List.mem_cons]
      constructor
      · rintro (rfl | hf)
        · exact ⟨hmem.1, hmem.2⟩
        · obtain ⟨h1, h2⟩ := (ihm f).mp hf
          exact ⟨h1, Nat.lt_trans h2 hmem.2⟩
      · rintro ⟨hfr, hfp⟩
        by_cases hfm : f = m
        · left; exact hfm
        · right; exact (ihm f).mpr ⟨hfr, Nat.lt_of_le_of_ne (hub f hfr hfp) hfm⟩

/-- Trailing slots of the table-fill loop: once the distinct values below
`prev` are exhausted, every later slot holds the sentinel 0. -/
theorem buildTableAux_trailing_zero (raw : List Nat) (hpos : ∀ f ∈ raw, 0 < f) :
    ∀ (n prev i : Nat), (raw.dedup.filter (fun f => f < prev)).length ≤ i → i < n →
      (buildTableAux raw n prev).getD i 0 = 0 := by
  intro n
  induction n with
  | zero => intro prev i _ h; omega
  | succ k ih =>
    intro prev i hcount hi
    by_cases hemp : (raw.dedup.filter (fun f => f < prev)).length = 0
    · have hnone : ∀ g ∈ raw, ¬ g < prev := by
        intro g hg hlt
        have hmem : g ∈ raw.dedup.filter (fun f => f < prev) :=
          List.mem_filter.mpr ⟨List.mem_dedup.mpr hg, by simp [hlt]⟩
        rw [List.length_eq_zero] at hemp
        rw [hemp] at hmem
        simp at hmem
      rw [buildTableAux_none_below raw prev hnone (k + 1)]
      exact getD_replicate_zero (k + 1) i
    · have hne : raw.dedup.filter (fun f => f < prev) ≠ [] := by
        intro h; rw [h] at hemp; simp at hemp
      obtain ⟨w, hw⟩ := List.exists_mem_of_ne_nil _ hne
      have hwr : w ∈ raw := List.mem_dedup.mp (List.mem_filter.mp hw).1
      have hwp : w < prev := by simpa using (List.mem_filter.mp hw).2
      set m := find_next_max raw prev with hm
      have hub : ∀ f ∈ raw, f < prev → f ≤ m := fun f hf hlt => find_next_max_ub hf hlt
      have hmpos : 0 < m := Nat.lt_of_lt_of_le (hpos w hwr) (hub w hwr hwp)
      have hmem : m ∈ raw ∧ m < prev := by
        rcases find_next_max_mem raw prev with h0 | h1
        · rw [← hm] at h0; omega
        · rw [← hm] at h1; exact h1
      have hubD : ∀ f ∈ raw.dedup, f < prev → f ≤ m :=
        fun f hf => hub f (List.mem_dedup.mp hf)
      have hstep := filter_lt_count_step raw.dedup (List.nodup_dedup raw) m prev
        (List.mem_dedup.mpr hmem.1) hmem.2 hubD
      obtain ⟨j, rfl⟩ : ∃ j, i = j + 1 := ⟨i - 1, by omega⟩
      rw [buildTableAux_succ, ← hm, List.getD_cons_succ]
      exact ih m j (by omega) (by omega)

/-! ### Lemmas about the capping operation -/

theorem cpufreq_set_level_stable (ok : Bool) (d : CpufreqDevice) (s : Nat) :
    (cpufreq_set_level ok d s).1.freq_table = d.freq_table ∧
    (cpufreq_set_level ok d s).1.max_level = d.max_level ∧
    (cpufreq_set_level ok d s).1.id = d.id := by
  unfold cpufreq_set_level
  split_ifs <;> simp

theorem cpufreq_set_level_calls_le_one (ok : Bool) (d : CpufreqDevice) (s : Nat) :
    (cpufreq_set_level ok d s).2.2 ≤ 1 := by
  unfold cpufreq_set_level
  split_ifs <;> simp

theorem cpufreq_set_level_state_le (ok : Bool) (d : CpufreqDevice) (s : Nat)
    (hs : s ≤ d.max_level) (h0 : d.cpufreq_state ≤ d.max_level) :
    (cpufreq_set_level ok d s).1.cpufreq_state ≤ d.max_level := by
  unfold cpufreq_set_level
  split_ifs <;> simp [h0, hs]

theorem cpu_limits_set_dev_none {ok : Bool} {d : CpufreqDevice} {mf : Nat}
    (h : resolveLevel d mf = none) : cpu_limits_set_dev ok d mf = (d, 0) := by
  simp [cpu_limits_set_dev, h]

theorem cpu_limits_set_dev_same {ok : Bool} {d : CpufreqDevice} {mf : Nat}
    (h : resolveLevel d mf = some d.cpufreq_state) :
    cpu_limits_set_dev ok d mf = (d, 0) := by
  have hle := resolveLevel_le_max h
  simp [cpu_limits_set_dev, h, cpufreq_set_level, Nat.not_lt.mpr hle]

theorem cpu_limits_set_dev_change {d : CpufreqDevice} {mf l : Nat}
    (h : resolveLevel d mf = some l) (hne : d.cpufreq_state ≠ l) :
    cpu_limits_set_dev true d mf =
      ({ d with cpufreq_state := l, qos_value := d.freq_table.getD l 0 }, 1) := by
  have hle := resolveLevel_le_max h
  simp [cpu_limits_set_dev, h, cpufreq_set_level, Nat.not_lt.mpr hle, hne]

theorem cpu_limits_set_dev_change_fail {d : CpufreqDevice} {mf l : Nat}
    (h : resolveLevel d mf = some l) (hne : d.cpufreq_state ≠ l) :
    cpu_limits_set_dev false d mf = ({ d with cpufreq_state := l }, 1) := by
  have hle := resolveLevel_le_max h
  simp [cpu_limits_set_dev, h, cpufreq_set_level, Nat.not_lt.mpr hle, hne]

theorem cpu_limits_set_dev_stable (ok : Bool) (d : CpufreqDevice) (mf : Nat) :
    (cpu_limits_set_dev ok d mf).1.freq_table = d.freq_table ∧
    (cpu_limits_set_dev ok d mf).1.max_level = d.max_level ∧
    (cpu_limits_set_dev ok d mf).1.id = d.id := by
  unfold cpu_limits_set_dev
  cases h : resolveLevel d mf with
  | none => simp
  | some l => simpa using cpufreq_set_level_stable ok d l

theorem cpu_limits_set_dev_calls_le_one (ok : Bool) (d : CpufreqDevice) (mf : Nat) :
    (cpu_limits_set_dev ok d mf).2 ≤ 1 := by
  unfold cpu_limits_set_dev
  cases h : resolveLevel d mf with
  | none => simp
  | some l => simpa using cpufreq_set_level_calls_le_one ok d l

theorem resolveLevel_congr {d d' : CpufreqDevice} (hf : d'.freq_table = d.freq_table)
    (hm : d'.max_level = d.max_level) (mf : Nat) :
    resolveLevel d' mf = resolveLevel d mf := by
  rw [resolveLevel, resolveLevel, hf, hm]

/-- Repeating an identical capping request on a single device issues no
further backend call: the second resolution yields the state set by the
first. -/
theorem cpu_limits_set_dev_idem (d : CpufreqDevice) (mf : Nat) :
    cpu_limits_set_dev true (cpu_limits_set_dev true d mf).1 mf =
      ((cpu_limits_set_dev true d mf).1, 0) := by
  cases h : resolveLevel d mf with
  | none =>
    rw [cpu_limits_set_dev_none h]
    simpa using cpu_limits_set_dev_none h
  | some l =>
    by_cases hs : d.cpufreq_state = l
    · rw [← hs] at h
      rw [cpu_limits_set_dev_same h]
      simpa using cpu_limits_set_dev_same h
    · rw [cpu_limits_set_dev_change h hs]
      apply cpu_limits_set_dev_same
      have hr : resolveLevel { d with cpufreq_state := l, qos_value := d.freq_table.getD l 0 } mf
          = resolveLevel d mf := resolveLevel_congr rfl rfl mf
      rw [hr, h]

theorem cpu_limits_set_level_calls_le_one (ok : Bool) :
    ∀ (devs : List CpufreqDevice) (cpu mf : Nat),
      (cpu_limits_set_level ok devs cpu mf).2 ≤ 1 := by
  intro devs
  induction devs with
  | nil => intro cpu mf; simp [cpu_limits_set_level]
  | cons d ds ih =>
    intro cpu mf
    by_cases hid : d.id = cpu
    · simpa [cpu_limits_set_level, hid] using cpu_limits_set_dev_calls_le_one ok d mf
    · simpa [cpu_limits_set_level, hid] using ih cpu mf

/-- Repeating an identical capping request through the list walk issues no
further backend call. -/
theorem cpu_limits_set_level_idem :
    ∀ (devs : List CpufreqDevice) (cpu mf : Nat),
      cpu_limits_set_level true (cpu_limits_set_level true devs cpu mf).1 cpu mf =
        ((cpu_limits_set_level true devs cpu mf).1, 0) := by
  intro devs
  induction devs with
  | nil => intro cpu mf; simp [cpu_limits_set_level]
  | cons d ds ih =>
    intro cpu mf
    by_cases hid : d.id = cpu
    · have hid1 : (cpu_limits_set_dev true d mf).1.id = cpu := by
        rw [(cpu_limits_set_dev_stable true d mf).2.2, hid]
      simp only [cpu_limits_set_level, if_pos hid, if_pos hid1]
      rw [cpu_limits_set_dev_idem d mf]
    · have h2 := ih cpu mf
      simp only [cpu_limits_set_level, if_neg hid]
      rw [h2]

/-! ### Lemmas about initialization -/

theorem cpuErr_eq_zero {c : CpuInfo} (h : cpuErr c = 0) :
    ∃ raw, c.policyFreqs = some raw ∧ raw.length ≠ 0 ∧ c.allocOk = true ∧
      ¬ c.qosAddRet < 0 := by
  rcases c with ⟨pf, al, qr⟩
  cases pf with
  | none =>
    exfalso
    simp only [cpuErr, ESRCH] at h
    omega
  | some raw =>
    simp only [cpuErr] at h
    refine ⟨raw, rfl, ?_⟩
    by_cases h1 : raw.length = 0
    · rw [if_pos h1] at h
      simp only [ENODEV] at h
      omega
    · rw [if_neg h1] at h
      by_cases h2 : al = false
      · rw [if_pos h2] at h
        simp only [ENOMEM] at h
        omega
      · rw [if_neg h2] at h
        by_cases h3 : qr < 0
        · rw [if_pos h3] at h
          exact absurd h (by omega)
        · exact ⟨h1, by simpa using h2, h3⟩

/-- Abort-on-failure shape of the `cpu_thermal_init` loop: with a prefix of
successful CPUs and then a failing one, the loop stops at the failing CPU,
returns exactly its error, has registered one device per successful prefix
CPU, and never looks at the remaining CPUs. -/
theorem cpu_thermal_init_go_fail :
    ∀ (pre : List CpuInfo) (c : CpuInfo) (rest : List CpuInfo)
      (r : Int) (devs : List CpufreqDevice) (cpu : Nat),
      (∀ p ∈ pre, cpuErr p = 0) → cpuErr c ≠ 0 →
      (cpu_thermal_init_go r devs cpu (pre ++ c :: rest)).1 = cpuErr c ∧
      (cpu_thermal_init_go r devs cpu (pre ++ c :: rest)).2.length =
        devs.length + pre.length ∧
      cpu_thermal_init_go r devs cpu (pre ++ c :: rest) =
        cpu_thermal_init_go r devs cpu (pre ++ [c]) := by
  intro pre
  induction pre with
  | nil =>
    intro c rest r devs cpu _ hc
    rcases c with ⟨pf, al, qr⟩
    cases pf with
    | none => simp [cpu_thermal_init_go, cpuErr]
    | some raw =>
      by_cases h1 : raw.length = 0
      · simp [cpu_thermal_init_go, cpuErr, h1]
      · by_cases h2 : al = false
        · simp [cpu_thermal_init_go, cpuErr, h1, h2]
        · by_cases h3 : qr < 0
          · simp [cpu_thermal_init_go, cpuErr, h1, h2, h3]
          · exfalso
            apply hc
            simp [cpuErr, h1, h2, h3]
  | cons p pre ih =>
    intro c rest r devs cpu hpre hc
    obtain ⟨raw, hpf, h1, h2, h3⟩ := cpuErr_eq_zero (hpre p (List.mem_cons_self p pre))
    have hpre' : ∀ q ∈ pre, cpuErr q = 0 := fun q hq => hpre q (List.mem_cons_of_mem p hq)
    rcases p with ⟨pf, al, qr⟩
    simp only at hpf h2 h3
    subst hpf
    subst h2
    have e1 : cpu_thermal_init_go r devs cpu
        (((⟨some raw, true, qr⟩ : CpuInfo) :: pre) ++ c :: rest) =
        cpu_thermal_init_go qr (init_cpu_dev cpu raw :: devs) (cpu + 1) (pre ++ c :: rest) := by
      simp [cpu_thermal_init_go, h1, h3]
    have e2 : cpu_thermal_init_go r devs cpu
        (((⟨some raw, true, qr⟩ : CpuInfo) :: pre) ++ [c]) =
        cpu_thermal_init_go qr (init_cpu_dev cpu raw :: devs) (cpu + 1) (pre ++ [c]) := by
      simp [cpu_thermal_init_go, h1, h3]
    obtain ⟨g1, g2, g3⟩ := ih c rest qr (init_cpu_dev cpu raw :: devs) (cpu + 1) hpre' hc
    rw [e1, e2]
    refine ⟨g1, ?_, g3⟩
    rw [g2]
    simp only [List.length_cons]
    omega

/-! ### Lemmas about teardown -/

theorem destory_thermal_cpu_fst : ∀ (devs : List CpufreqDevice),
    (destory_thermal_cpu devs).1 = [] := by
  intro devs
  induction devs with
  | nil => rfl
  | cons d ds ih => simpa [destory_thermal_cpu] using ih

/-- In the teardown trace, every entry-removal event is preceded by the
release of the same entry's qos request. -/
theorem destory_thermal_cpu_order : ∀ (devs : List CpufreqDevice) (i n : Nat),
    (destory_thermal_cpu devs).2.get? i = some (TeardownEvent.removeEntry n) →
    ∃ j, j < i ∧ (destory_thermal_cpu devs).2.get? j =
      some (TeardownEvent.releaseSlot n) := by
  intro devs
  induction devs with
  | nil => intro i n h; simp [destory_thermal_cpu] at h
  | cons d ds ih =>
    intro i n h
    simp only [destory_thermal_cpu] at h ⊢
    match i, h with
    | 0, h => simp [List.get?_cons_zero] at h
    | 1, h =>
      rw [List.get?_cons_succ, List.get?_cons_zero] at h
      have hn : d.id = n := by
        cases h
        rfl
      exact ⟨0, by omega, by rw [List.get?_cons_zero, hn]⟩
    | (j + 2), h =>
      rw [List.get?_cons_succ, List.get?_cons_succ] at h
      obtain ⟨k, hk, hkr⟩ := ih j n h
      exact ⟨k + 2, by omega, by rw [List.get?_cons_succ, List.get?_cons_succ]; exact hkr⟩

/-! ### Claim theorems -/

/-- Claim C1 counterexample: on the ladder [2000, 1500, 1000] with current
level 0, a capping request of 1500 with a FAILING backend leaves the recorded
current level at the new value 1 — it is not rolled back to the prior value 0
— while the backend ceiling is still 2000; the internal setter returns -1 but
the void capping API has no error channel.  This refutes the claimed
rollback/atomicity. -/
theorem C1_cex :
    (cpu_limits_set_dev false ⟨0, 0, 2, [2000, 1500, 1000], 2000⟩ 1500).1.cpufreq_state = 1 ∧
    (⟨0, 0, 2, [2000, 1500, 1000], 2000⟩ : CpufreqDevice).cpufreq_state = 0 ∧
    (cpu_limits_set_dev false ⟨0, 0, 2, [2000, 1500, 1000], 2000⟩ 1500).1.qos_value = 2000 ∧
    (cpufreq_set_level false ⟨0, 0, 2, [2000, 1500, 1000], 2000⟩ 1).2.1 = -1 := by
  decide

/-- Claim C1 (amended): when the backend ceiling-update fails on a level
change, the entry's recorded current level is NOT rolled back — it keeps the
newly requested level, written before the backend call — while the backend
ceiling (qos value) stays at its old value, so the table can record a level as
current that was never applied; the internal setter returns the failure code
-1 but the void capping entry point discards it. -/
theorem C1_amended :
    ∀ (d : CpufreqDevice) (mf l : Nat), resolveLevel d mf = some l →
      d.cpufreq_state ≠ l →
      cpufreq_set_level false d l = ({ d with cpufreq_state := l }, -1, 1) ∧
      cpu_limits_set_dev false d mf = ({ d with cpufreq_state := l }, 1) := by
  intro d mf l h hne
  have hle := resolveLevel_le_max h
  exact ⟨by simp [cpufreq_set_level, Nat.not_lt.mpr hle, hne],
    cpu_limits_set_dev_change_fail h hne⟩

/-- Witness for C1_amended at a concrete device and request. -/
theorem C1_witness :
    cpufreq_set_level false ⟨0, 0, 2, [2000, 1500, 1000], 2000⟩ 1 =
      (⟨0, 1, 2, [2000, 1500, 1000], 2000⟩, -1, 1) ∧
    cpu_limits_set_dev false ⟨0, 0, 2, [2000, 1500, 1000], 2000⟩ 1500 =
      (⟨0, 1, 2, [2000, 1500, 1000], 2000⟩, 1) :=
  C1_amended ⟨0, 0, 2, [2000, 1500, 1000], 2000⟩ 1500 1 (by decide) (by decide)

/-- Claim C2: the Level Resolver scans from index 0 upward and selects the
first index whose frequency is ≤ the requested ceiling; a request at or above
the highest frequency resolves to level 0; on the ladder [2000, 1500, 1000] a
request of 1800 resolves to level 1 and 2500 to level 0; and a request
strictly below every level matches no index and applies no change at all (no
clamping to the lowest level). -/
theorem C2_first_match :
    (∀ (d : CpufreqDevice) (mf : Nat),
      d.freq_table.length = d.max_level + 1 → StrictDesc d.freq_table →
      (∀ l, resolveLevel d mf = some l →
          d.freq_table.getD l 0 ≤ mf ∧ ∀ j, j < l → mf < d.freq_table.getD j 0) ∧
      (∀ f fs, d.freq_table = f :: fs → f ≤ mf → resolveLevel d mf = some 0) ∧
      ((∀ g ∈ d.freq_table, mf < g) →
          resolveLevel d mf = none ∧ ∀ ok, cpu_limits_set_dev ok d mf = (d, 0))) ∧
    resolveLevel ⟨0, 0, 2, [2000, 1500, 1000], 2000⟩ 1800 = some 1 ∧
    resolveLevel ⟨0, 0, 2, [2000, 1500, 1000], 2000⟩ 2500 = some 0 ∧
    (∀ ok, cpu_limits_set_dev ok ⟨0, 2, 2, [2000, 1500, 1000], 1000⟩ 500 =
      (⟨0, 2, 2, [2000, 1500, 1000], 1000⟩, 0)) := by
  refine ⟨?_, by decide, by decide, by decide⟩
  intro d mf hlen hsd
  have hscan := resolveLevel_eq_scan hlen mf
  refine ⟨?_, ?_, ?_⟩
  · intro l hl
    rw [hscan] at hl
    exact ⟨scanLevel_getD_le _ _ _ hl, fun j hj => scanLevel_first _ _ _ hl j hj⟩
  · intro f fs hft hf
    rw [hscan, hft]
    simp [scanLevel, hf]
  · intro hall
    have hnone : resolveLevel d mf = none := by
      rw [hscan]
      exact scanLevel_none_of _ _ hall
    exact ⟨hnone, fun ok => cpu_limits_set_dev_none hnone⟩

/-- Witness for C2_first_match: on the example ladder a request of 500
(strictly below the lowest level 1000) matches no index and changes nothing. -/
theorem C2_witness :
    resolveLevel ⟨0, 0, 2, [2000, 1500, 1000], 2000⟩ 500 = none ∧
    cpu_limits_set_dev true ⟨0, 0, 2, [2000, 1500, 1000], 2000⟩ 500 =
      (⟨0, 0, 2, [2000, 1500, 1000], 2000⟩, 0) :=
  ⟨((C2_first_match.1 ⟨0, 0, 2, [2000, 1500, 1000], 2000⟩ 500 (by decide)
      (by decide)).2.2 (by decide)).1,
   ((C2_first_match.1 ⟨0, 0, 2, [2000, 1500, 1000], 2000⟩ 500 (by decide)
      (by decide)).2.2 (by decide)).2 true⟩

/-- Claim C3 counterexample: the raw capability set [1000, 1000] has one
distinct valid frequency, but the builder produces the 2-slot table
[1000, 0] — its length equals the raw count, not the distinct count, and the
trailing slot holds the sentinel 0. -/
theorem C3_cex :
    buildTable [1000, 1000] = [1000, 0] ∧
    List.dedup [1000, 1000] = [1000] ∧
    (buildTable [1000, 1000]).length ≠ (List.dedup [1000, 1000]).length := by
  decide

/-- Claim C3 (amended): for a raw capability set WITHOUT duplicates (all
frequencies positive and below UINT_MAX), the builder produces a strictly
descending, duplicate-free table whose length equals the number of distinct
frequencies, every input frequency appearing exactly once; for an input with
duplicates the table length still equals the raw count (the pre-counted
number of valid entries), the surplus trailing slots being filled with the
sentinel 0. -/
theorem C3_amended :
    (∀ raw : List Nat, raw.Nodup → (∀ f ∈ raw, 0 < f ∧ f < UINT_MAX) →
       StrictDesc (buildTable raw) ∧ (buildTable raw).length = raw.length ∧
       (∀ f, f ∈ buildTable raw ↔ f ∈ raw)) ∧
    (∀ raw : List Nat, (buildTable raw).length = raw.length) := by
  constructor
  · intro raw hnd hb
    have hcount : (raw.filter (fun f => f < UINT_MAX)).length = raw.length := by
      rw [List.filter_eq_self.mpr]
      intro a ha
      simp [(hb a ha).2]
    obtain ⟨h1, h2⟩ := buildTableAux_nodup_spec raw (fun f hf => (hb f hf).1) hnd
      raw.length UINT_MAX hcount
    refine ⟨h1, buildTable_length raw, ?_⟩
    intro f
    constructor
    · intro hf
      exact ((h2 f).mp hf).1
    · intro hf
      exact (h2 f).mpr ⟨hf, (hb f hf).2⟩
  · exact buildTable_length

/-- Witness for C3_amended on the unsorted duplicate-free input
[1500, 2000, 1000]. -/
theorem C3_witness :
    StrictDesc (buildTable [1500, 2000, 1000]) ∧
    (buildTable [1500, 2000, 1000]).length = 3 ∧
    (∀ f, f ∈ buildTable [1500, 2000, 1000] ↔ f ∈ [1500, 2000, 1000]) :=
  C3_amended.1 [1500, 2000, 1000] (by decide) (by decide)

/-- Claim C4: a successful capping call that changes the level issues exactly
one backend ceiling-update; a call whose resolved level equals the current
level issues zero backend calls; and two immediately consecutive identical
cap calls produce exactly one backend update in total when the first one
changes the level (the second always contributes zero, and any single walk of
the table issues at most one backend call). -/
theorem C4_idempotent :
    (∀ (d : CpufreqDevice) (mf l : Nat), resolveLevel d mf = some l →
        d.cpufreq_state ≠ l → (cpu_limits_set_dev true d mf).2 = 1) ∧
    (∀ (d : CpufreqDevice) (mf : Nat), resolveLevel d mf = some d.cpufreq_state →
        cpu_limits_set_dev true d mf = (d, 0)) ∧
    (∀ (d : CpufreqDevice) (mf l : Nat), resolveLevel d mf = some l →
        d.cpufreq_state ≠ l →
        (cpu_limits_set_dev true d mf).2 +
          (cpu_limits_set_dev true (cpu_limits_set_dev true d mf).1 mf).2 = 1) ∧
    (∀ (devs : List CpufreqDevice) (cpu mf : Nat),
        (cpu_limits_set_level true devs cpu mf).2 ≤ 1 ∧
        (cpu_limits_set_level true (cpu_limits_set_level true devs cpu mf).1 cpu mf).2
          = 0) := by
  refine ⟨?_, fun d mf h => cpu_limits_set_dev_same h, ?_, ?_⟩
  · intro d mf l h hne
    rw [cpu_limits_set_dev_change h hne]
  · intro d mf l h hne
    rw [cpu_limits_set_dev_idem d mf, cpu_limits_set_dev_change h hne]
    rfl
  · intro devs cpu mf
    exact ⟨cpu_limits_set_level_calls_le_one true devs cpu mf,
      by rw [cpu_limits_set_level_idem devs cpu mf]⟩

/-- Witness for C4_idempotent: capping to 1800 on the example ladder changes
the level (one backend call), repeating it adds zero, and a call already at
the resolved level is a no-op. -/
theorem C4_witness :
    (cpu_limits_set_dev true ⟨0, 0, 2, [2000, 1500, 1000], 2000⟩ 1800).2 = 1 ∧
    (cpu_limits_set_dev true ⟨0, 0, 2, [2000, 1500, 1000], 2000⟩ 1800).2 +
      (cpu_limits_set_dev true
        (cpu_limits_set_dev true ⟨0, 0, 2, [2000, 1500, 1000], 2000⟩ 1800).1 1800).2 = 1 ∧
    cpu_limits_set_dev true ⟨0, 1, 2, [2000, 1500, 1000], 1500⟩ 1800 =
      (⟨0, 1, 2, [2000, 1500, 1000], 1500⟩, 0) :=
  ⟨C4_idempotent.1 ⟨0, 0, 2, [2000, 1500, 1000], 2000⟩ 1800 1 (by decide) (by decide),
   C4_idempotent.2.2.1 ⟨0, 0, 2, [2000, 1500, 1000], 2000⟩ 1800 1 (by decide) (by decide),
   C4_idempotent.2.1 ⟨0, 1, 2, [2000, 1500, 1000], 1500⟩ 1800 (by decide)⟩

/-- Claim C5 counterexample: a capping call for processor id 7 on a table
holding only id 3 completes normally — the function is void, reports no
UnknownProcessor error, changes nothing and issues zero backend calls. -/
theorem C5_cex :
    cpu_limits_set_level true [⟨3, 0, 1, [2000, 1000], 2000⟩] 7 1500 =
      ([⟨3, 0, 1, [2000, 1000], 2000⟩], 0) := by
  decide

/-- Claim C5 (amended): a capping call for a processor id not present in the
table silently does nothing — the table is unchanged and no backend call is
issued; the void API surfaces no UnknownProcessor (or any other) error. -/
theorem C5_amended :
    ∀ (ok : Bool) (devs : List CpufreqDevice) (cpu mf : Nat),
      (∀ d ∈ devs, d.id ≠ cpu) →
      cpu_limits_set_level ok devs cpu mf = (devs, 0) := by
  intro ok devs
  induction devs with
  | nil => intro cpu mf _; rfl
  | cons d ds ih =>
    intro cpu mf h
    have hd : d.id ≠ cpu := h d (List.mem_cons_self d ds)
    have hds := ih cpu mf (fun x hx => h x (List.mem_cons_of_mem d hx))
    simp only [cpu_limits_set_level, if_neg hd]
    rw [hds]

/-- Witness for C5_amended at a concrete table and unknown id. -/
theorem C5_witness :
    cpu_limits_set_level true [⟨3, 0, 1, [2000, 1000], 2000⟩, ⟨4, 0, 0, [900], 900⟩] 7 1500 =
      ([⟨3, 0, 1, [2000, 1000], 2000⟩, ⟨4, 0, 0, [900], 900⟩], 0) :=
  C5_amended true [⟨3, 0, 1, [2000, 1000], 2000⟩, ⟨4, 0, 0, [900], 900⟩] 7 1500 (by decide)

/-- Claim C6 counterexample: with a single CPU whose policy lookup fails,
`cpu_thermal_init` returns -ESRCH, but the module entry point
`mi_thermal_interface_init` discards that return value and reports startup
success (0) — the initialization error is swallowed, not surfaced. -/
theorem C6_cex :
    cpu_thermal_init [⟨none, true, 0⟩] = (-ESRCH, []) ∧
    mi_thermal_interface_init [⟨none, true, 0⟩] = (0, []) := by
  decide

/-- Claim C6 (amended): a failure on any processor aborts the per-CPU loop at
that processor — `cpu_thermal_init` returns that processor's error code, has
initialized exactly the processors before it, and never inspects the
processors after it — but the module init routine discards the returned error
and unconditionally reports startup success (0), so the failure is NOT
surfaced to the owning process's startup sequence. -/
theorem C6_amended :
    (∀ (pre : List CpuInfo) (c : CpuInfo) (rest rest2 : List CpuInfo),
       (∀ p ∈ pre, cpuErr p = 0) → cpuErr c ≠ 0 →
       (cpu_thermal_init (pre ++ c :: rest)).1 = cpuErr c ∧
       (cpu_thermal_init (pre ++ c :: rest)).2.length = pre.length ∧
       cpu_thermal_init (pre ++ c :: rest) = cpu_thermal_init (pre ++ c :: rest2)) ∧
    (∀ cs, (mi_thermal_interface_init cs).1 = 0) := by
  constructor
  · intro pre c rest rest2 hpre hc
    obtain ⟨g1, g2, g3⟩ := cpu_thermal_init_go_fail pre c rest 0 [] 0 hpre hc
    obtain ⟨_, _, g4⟩ := cpu_thermal_init_go_fail pre c rest2 0 [] 0 hpre hc
    refine ⟨g1, by simpa using g2, ?_⟩
    show cpu_thermal_init_go 0 [] 0 (pre ++ c :: rest) =
      cpu_thermal_init_go 0 [] 0 (pre ++ c :: rest2)
    rw [g3, g4]
  · intro cs
    rfl

/-- Witness for C6_amended: CPU 0 succeeds, CPU 1 has no policy, CPU 2 is
never initialized; adding or removing CPUs after the failing one does not
change the result, and module init still reports 0. -/
theorem C6_witness :
    (cpu_thermal_init [⟨some [1000], true, 0⟩, ⟨none, true, 0⟩, ⟨some [5], true, 0⟩]).1 =
      cpuErr ⟨none, true, 0⟩ ∧
    (cpu_thermal_init [⟨some [1000], true, 0⟩, ⟨none, true, 0⟩, ⟨some [5], true, 0⟩]).2.length = 1 ∧
    cpu_thermal_init [⟨some [1000], true, 0⟩, ⟨none, true, 0⟩, ⟨some [5], true, 0⟩] =
      cpu_thermal_init [⟨some [1000], true, 0⟩, ⟨none, true, 0⟩] ∧
    (mi_thermal_interface_init [⟨some [1000], true, 0⟩, ⟨none, true, 0⟩]).1 = 0 :=
  ⟨(C6_amended.1 [⟨some [1000], true, 0⟩] ⟨none, true, 0⟩ [⟨some [5], true, 0⟩] []
      (by decide) (by decide)).1,
   (C6_amended.1 [⟨some [1000], true, 0⟩] ⟨none, true, 0⟩ [⟨some [5], true, 0⟩] []
      (by decide) (by decide)).2.1,
   (C6_amended.1 [⟨some [1000], true, 0⟩] ⟨none, true, 0⟩ [⟨some [5], true, 0⟩] []
      (by decide) (by decide)).2.2,
   C6_amended.2 [⟨some [1000], true, 0⟩, ⟨none, true, 0⟩]⟩

/-- Claim C7 counterexample: after tearing down a one-entry table, a capping
call for that very processor id completes normally with no error of any kind
— the void API cannot fail with UnknownProcessor; it silently does nothing. -/
theorem C7_cex :
    (destory_thermal_cpu [⟨0, 1, 2, [2000, 1500, 1000], 1500⟩]).1 = [] ∧
    cpu_limits_set_level true
      (destory_thermal_cpu [⟨0, 1, 2, [2000, 1500, 1000], 1500⟩]).1 0 1800 = ([], 0) := by
  decide

/-- Claim C7 (amended): during teardown every entry's qos request is released
strictly before the entry is removed (in the event trace, each removeEntry is
preceded by the releaseSlot of the same id), after teardown the table is
empty, and any subsequent capping call finds no entry and silently does
nothing with zero backend calls (the void API surfaces no UnknownProcessor
error). -/
theorem C7_amended :
    (∀ devs, (destory_thermal_cpu devs).1 = []) ∧
    (∀ devs i n, (destory_thermal_cpu devs).2.get? i =
        some (TeardownEvent.removeEntry n) →
       ∃ j, j < i ∧ (destory_thermal_cpu devs).2.get? j =
        some (TeardownEvent.releaseSlot n)) ∧
    (∀ (ok : Bool) (devs : List CpufreqDevice) (cpu mf : Nat),
       cpu_limits_set_level ok (destory_thermal_cpu devs).1 cpu mf = ([], 0)) := by
  refine ⟨destory_thermal_cpu_fst, destory_thermal_cpu_order, ?_⟩
  intro ok devs cpu mf
  rw [destory_thermal_cpu_fst]
  rfl

/-- Witness for C7_amended on a concrete one-entry table. -/
theorem C7_witness :
    (destory_thermal_cpu [⟨5, 0, 0, [1000], 1000⟩]).1 = [] ∧
    (∃ j, j < 1 ∧ (destory_thermal_cpu [⟨5, 0, 0, [1000], 1000⟩]).2.get? j =
      some (TeardownEvent.releaseSlot 5)) ∧
    cpu_limits_set_level true (destory_thermal_cpu [⟨5, 0, 0, [1000], 1000⟩]).1 5 500 =
      ([], 0) :=
  ⟨C7_amended.1 [⟨5, 0, 0, [1000], 1000⟩],
   C7_amended.2.1 [⟨5, 0, 0, [1000], 1000⟩] 1 5 (by decide),
   C7_amended.2.2 true [⟨5, 0, 0, [1000], 1000⟩] 5 500⟩

/-- Claim C8: a constraint entry is created with current level 0, a table of
one slot per valid entry, max_level equal to table length minus one, and its
qos request seeded at the highest (index-0) frequency; and every capping
operation preserves current level ≤ max_level while never mutating the ladder
or max_level. -/
theorem C8_entry_invariants :
    (∀ (cpu : Nat) (raw : List Nat), raw ≠ [] →
       (init_cpu_dev cpu raw).cpufreq_state = 0 ∧
       (init_cpu_dev cpu raw).freq_table.length = raw.length ∧
       (init_cpu_dev cpu raw).max_level = (init_cpu_dev cpu raw).freq_table.length - 1 ∧
       (init_cpu_dev cpu raw).qos_value = (init_cpu_dev cpu raw).freq_table.getD 0 0 ∧
       (init_cpu_dev cpu raw).cpufreq_state ≤ (init_cpu_dev cpu raw).max_level) ∧
    (∀ (ok : Bool) (d : CpufreqDevice) (mf : Nat), d.cpufreq_state ≤ d.max_level →
       (cpu_limits_set_dev ok d mf).1.cpufreq_state ≤ d.max_level ∧
       (cpu_limits_set_dev ok d mf).1.freq_table = d.freq_table ∧
       (cpu_limits_set_dev ok d mf).1.max_level = d.max_level) := by
  constructor
  · intro cpu raw _
    refine ⟨rfl, buildTable_length raw, ?_, rfl, Nat.zero_le _⟩
    show raw.length - 1 = (buildTable raw).length - 1
    rw [buildTable_length]
  · intro ok d mf h0
    have hst := cpu_limits_set_dev_stable ok d mf
    refine ⟨?_, hst.1, hst.2.1⟩
    unfold cpu_limits_set_dev
    cases h : resolveLevel d mf with
    | none => simpa using h0
    | some l =>
      have hle := resolveLevel_le_max h
      simpa using cpufreq_set_level_state_le ok d l hle h0

/-- Witness for C8_entry_invariants on the raw set [1000, 2000] and a capping
step on the resulting entry. -/
theorem C8_witness :
    ((init_cpu_dev 0 [1000, 2000]).cpufreq_state = 0 ∧
     (init_cpu_dev 0 [1000, 2000]).freq_table.length = 2 ∧
     (init_cpu_dev 0 [1000, 2000]).max_level =
       (init_cpu_dev 0 [1000, 2000]).freq_table.length - 1 ∧
     (init_cpu_dev 0 [1000, 2000]).qos_value =
       (init_cpu_dev 0 [1000, 2000]).freq_table.getD 0 0 ∧
     (init_cpu_dev 0 [1000, 2000]).cpufreq_state ≤ (init_cpu_dev 0 [1000, 2000]).max_level) ∧
    ((cpu_limits_set_dev true ⟨0, 0, 1, [2000, 1000], 2000⟩ 1200).1.cpufreq_state ≤ 1 ∧
     (cpu_limits_set_dev true ⟨0, 0, 1, [2000, 1000], 2000⟩ 1200).1.freq_table =
       [2000, 1000] ∧
     (cpu_limits_set_dev true ⟨0, 0, 1, [2000, 1000], 2000⟩ 1200).1.max_level = 1) :=
  ⟨C8_entry_invariants.1 0 [1000, 2000] (by decide),
   C8_entry_invariants.2 true ⟨0, 0, 1, [2000, 1000], 2000⟩ 1200 (by decide)⟩

/-- Claim C9: the Level Resolver is idempotent on ladder values — on a
strictly descending table, resolving the table's own frequency at index i
yields exactly i. -/
theorem C9_resolve_own_level :
    ∀ (d : CpufreqDevice) (i : Nat),
      d.freq_table.length = d.max_level + 1 → StrictDesc d.freq_table →
      i < d.freq_table.length →
      resolveLevel d (d.freq_table.getD i 0) = some i := by
  intro d i hlen hsd hi
  rw [resolveLevel_eq_scan hlen]
  exact scanLevel_self d.freq_table hsd i hi

/-- Witness for C9_resolve_own_level: on [2000, 1500, 1000] resolving 1500
(the index-1 value) yields level 1. -/
theorem C9_witness :
    resolveLevel ⟨0, 0, 2, [2000, 1500, 1000], 2000⟩
      ((⟨0, 0, 2, [2000, 1500, 1000], 2000⟩ : CpufreqDevice).freq_table.getD 1 0) =
      some 1 :=
  C9_resolve_own_level ⟨0, 0, 2, [2000, 1500, 1000], 2000⟩ 1 (by decide) (by decide)
    (by decide)

/-- Claim C10: for a raw capability set with duplicates the built table's
trailing slots (from the distinct count onwards) hold the sentinel 0; a table
containing a sentinel slot matches EVERY request (any unsigned request is
≥ 0), so the below-lowest no-op behavior only holds for sentinel-free tables;
and on such a table a request below every real frequency resolves to a
sentinel index and, when the level changes, pushes a ceiling of 0 to the
backend. -/
theorem C10_sentinel_slots :
    (∀ raw : List Nat, (∀ f ∈ raw, 0 < f ∧ f < UINT_MAX) → ¬ raw.Nodup →
       ∀ i, raw.dedup.length ≤ i → i < raw.length → (buildTable raw).getD i 0 = 0) ∧
    (∀ (d : CpufreqDevice) (mf : Nat), d.freq_table.length = d.max_level + 1 →
       (0 : Nat) ∈ d.freq_table → (resolveLevel d mf).isSome = true) ∧
    (∀ (d : CpufreqDevice) (mf : Nat), d.freq_table.length = d.max_level + 1 →
       (0 : Nat) ∈ d.freq_table → (∀ g ∈ d.freq_table, g ≠ 0 → mf < g) →
       ∃ l, resolveLevel d mf = some l ∧ d.freq_table.getD l 0 = 0 ∧
         (d.cpufreq_state ≠ l →
           cpu_limits_set_dev true d mf =
             ({ d with cpufreq_state := l, qos_value := 0 }, 1))) := by
  refine ⟨?_, ?_, ?_⟩
  · intro raw hb hnd i hi1 hi2
    have hcount : (raw.dedup.filter (fun f => f < UINT_MAX)).length = raw.dedup.length := by
      rw [List.filter_eq_self.mpr]
      intro a ha
      simp [(hb a (List.mem_dedup.mp ha)).2]
    show (buildTableAux raw raw.length UINT_MAX).getD i 0 = 0
    exact buildTableAux_trailing_zero raw (fun f hf => (hb f hf).1) raw.length UINT_MAX i
      (by omega) hi2
  · intro d mf hlen h0
    rw [resolveLevel_eq_scan hlen]
    exact scanLevel_isSome _ _ 0 h0 (Nat.zero_le mf)
  · intro d mf hlen h0 hall
    have hsome : (resolveLevel d mf).isSome = true := by
      rw [resolveLevel_eq_scan hlen]
      exact scanLevel_isSome _ _ 0 h0 (Nat.zero_le mf)
    obtain ⟨l, hl⟩ := Option.isSome_iff_exists.mp hsome
    have hlscan : scanLevel mf d.freq_table = some l := by
      rw [← resolveLevel_eq_scan hlen]
      exact hl
    have hle : d.freq_table.getD l 0 ≤ mf := scanLevel_getD_le _ _ _ hlscan
    have hlt : l < d.freq_table.length := scanLevel_lt_length _ _ _ hlscan
    have hmem : d.freq_table.getD l 0 ∈ d.freq_table := by
      rw [List.getD_eq_getElem _ 0 hlt]
      exact List.getElem_mem hlt
    have hz : d.freq_table.getD l 0 = 0 := by
      by_contra hne
      exact absurd hle (Nat.not_le.mpr (hall _ hmem hne))
    refine ⟨l, hl, hz, ?_⟩
    intro hnst
    rw [cpu_limits_set_dev_change hl hnst, hz]

/-- Witness for C10_sentinel_slots: [1000, 1000] builds [1000, 0] whose slot 1
is the sentinel; on the table [2000, 1500, 0] a request of 500 (below every
real frequency) resolves to the sentinel index 2 and pushes ceiling 0. -/
theorem C10_witness :
    (buildTable [1000, 1000]).getD 1 0 = 0 ∧
    (resolveLevel ⟨0, 0, 2, [2000, 1500, 0], 2000⟩ 500).isSome = true ∧
    (∃ l, resolveLevel ⟨0, 0, 2, [2000, 1500, 0], 2000⟩ 500 = some l ∧
       (⟨0, 0, 2, [2000, 1500, 0], 2000⟩ : CpufreqDevice).freq_table.getD l 0 = 0 ∧
       ((⟨0, 0, 2, [2000, 1500, 0], 2000⟩ : CpufreqDevice).cpufreq_state ≠ l →
         cpu_limits_set_dev true ⟨0, 0, 2, [2000, 1500, 0], 2000⟩ 500 =
           ({ (⟨0, 0, 2, [2000, 1500, 0], 2000⟩ : CpufreqDevice) with
               cpufreq_state := l, qos_value := 0 }, 1))) :=
  ⟨C10_sentinel_slots.1 [1000, 1000] (by decide) (by decide) 1 (by decide) (by decide),
   C10_sentinel_slots.2.1 ⟨0, 0, 2, [2000, 1500, 0], 2000⟩ 500 (by decide) (by decide),
   C10_sentinel_slots.2.2 ⟨0, 0, 2, [2000, 1500, 0], 2000⟩ 500 (by decide) (by decide)
     (by decide)⟩

end MiThermal
